import Mathlib

/-!
Verification development for the date-to-game resolution and media-asset
selection pipeline of the Dodgers Daily Replay client (`src/App.tsx`).

The shallow embedding below translates the pure helper functions of the
source into Lean.  JavaScript conventions are modelled explicitly:

* optional (possibly `undefined`) values become `Option`;
* JS string truthiness (`undefined` and `""` are falsy) becomes `truthyStr`;
* instants (`Date` values) become `Int` milliseconds since the Unix epoch;
* `Intl.DateTimeFormat` with `timeZone America/Los_Angeles` is modelled by
  the statutory United States daylight-saving rule in force since 2007
  (DST from 2:00 local on the second Sunday of March to 2:00 local on the
  first Sunday of November), which is exactly the tz database rule for
  `America/Los_Angeles` in the years the application runs over;
* string operations (`toLowerCase`, `includes`, `endsWith`, `trim`,
  `split`, ...) are modelled by structurally recursive functions on the
  character list of the string, with `Char.toLower`/`Char.toUpper`
  modelling case mapping on the ASCII data the pipeline handles.
-/

namespace DodgersDaily

/-! ## String helpers modelling JavaScript string operations -/

/-- Lowercase a string characterwise (model of `toLowerCase`). -/
def strLower (s : String) : String :=
  String.mk (s.data.map Char.toLower)

/-- Uppercase a string characterwise (model of `toUpperCase`). -/
def strUpper (s : String) : String :=
  String.mk (s.data.map Char.toUpper)

/-- Does the first character list start with the second? -/
def charsStartWith : List Char → List Char → Bool
  | _, [] => true
  | [], _ :: _ => false
  | c :: cs, p :: ps => c == p && charsStartWith cs ps

/-- Model of the JS `String.prototype.includes` substring test, by
recursion on the searched characters. -/
def charsContains (pat : List Char) : List Char → Bool
  | [] => pat.isEmpty
  | c :: cs => charsStartWith (c :: cs) pat || charsContains pat cs

/-- Model of `s.includes(pat)`. -/
def strIncludes (s pat : String) : Bool :=
  charsContains pat.data s.data

/-- Model of `s.startsWith(pat)`. -/
def strStartsWith (s pat : String) : Bool :=
  charsStartWith s.data pat.data

/-- Model of `s.endsWith(pat)`: the reversed string starts with the
reversed pattern. -/
def strEndsWith (s pat : String) : Bool :=
  charsStartWith s.data.reverse pat.data.reverse

/-- Model of `s.slice(n)` / dropping the first `n` characters. -/
def strDrop (s : String) (n : Nat) : String :=
  String.mk (s.data.drop n)

/-- Model of `s.trim()`: remove leading and trailing whitespace. -/
def strTrim (s : String) : String :=
  String.mk (((s.data.dropWhile Char.isWhitespace).reverse.dropWhile Char.isWhitespace).reverse)

/-- Model of `s.split(sep)` for a one-character separator, on character
lists. -/
def splitOnChar (sep : Char) : List Char → List (List Char)
  | [] => [[]]
  | c :: cs =>
      if c == sep then [] :: splitOnChar sep cs
      else
        match splitOnChar sep cs with
        | h :: t => (c :: h) :: t
        | [] => [[c]]

/-- Decimal value of a digit character list, `none` on any non-digit
(`Number` of the fragment is NaN there); the empty list is 0, as
`Number` of the empty string is. -/
def digitsValue : List Char → Option Nat
  | [] => some 0
  | c :: cs =>
      if c.isDigit then
        match digitsValue cs with
        | some v => some ((c.toNat - 48) * 10 ^ cs.length + v)
        | none => none
      else none

/-- JS truthiness of an optional string: `undefined` and the empty string
are falsy, every other string is truthy. -/
def truthyStr : Option String → Bool
  | none => false
  | some s => s != ""

/-! ## Media data model (`Playback`, `MediaItem`, `GameContent` of the source) -/

/-- Source type `Playback`: one playback encoding with optional label and URL. -/
structure Playback where
  name : Option String
  url : Option String
  deriving DecidableEq, Repr

/-- Keyword entry of a `MediaItem` (`keywords?: Array of type/value pairs`). -/
structure MediaKeyword where
  type : Option String
  value : Option String
  deriving DecidableEq, Repr

/-- Source type `MediaItem`: a media feed entry with optional descriptive
fields and playback encodings. -/
structure MediaItem where
  type : Option String
  title : Option String
  headline : Option String
  blurb : Option String
  description : Option String
  caption : Option String
  url : Option String
  playbackUrl : Option String
  slug : Option String
  mediaPlaybackType : Option String
  keywords : Option (List MediaKeyword)
  playbacks : Option (List Playback)
  deriving DecidableEq, Repr

/-- Source type `MediaChannel`. -/
structure MediaChannel where
  items : Option (List MediaItem)
  deriving DecidableEq, Repr

/-- The `media` field of a `GameContent` response. -/
structure MediaBlock where
  epg : Option (List MediaChannel)
  epgAlternate : Option (List MediaChannel)
  deriving DecidableEq, Repr

/-- Source type `GameContent`. -/
structure GameContent where
  media : Option MediaBlock
  deriving DecidableEq, Repr

/-- Source constant `FALLBACK_STREAMABLE` (`src/App.tsx` line 50). -/
def FALLBACK_STREAMABLE : String :=
  "https://streamable.com/m/condensed-game-lad-sf-9-14-25?partnerId=web_video-playback-page_video-share"

/-! ## `normalizeUrl`, `pickPlaybackUrl`, `pickEmbedUrl` (source lines 528-578) -/

/-- Source `normalizeUrl`: on a string input, rewrite a leading
`http://` (matched case-insensitively, as the `/^http:\/\//i` regex does)
to `https://`, leaving the remainder of the string unchanged; `undefined`
passes through. -/
def normalizeUrl : Option String → Option String
  | none => none
  | some u =>
      some (if strStartsWith (strLower u) "http://" then "https://" ++ strDrop u 7 else u)

/-- Case-insensitive label match of `pickPlaybackUrl`:
`playback?.name?.toLowerCase().includes(label)` (labels are lowercase). -/
def nameHasLabel (p : Playback) (label : String) : Bool :=
  match p.name with
  | none => false
  | some n => strIncludes (strLower n) label

/-- One iteration of the preference loop of `pickPlaybackUrl`: find the
first encoding whose name contains `label`; if it has a truthy `url`,
return that URL normalized, otherwise report no result for this label
(the source then moves to the next label). -/
def labelStep (pbs : List Playback) (label : String) : Option String :=
  match pbs.find? (fun p => nameHasLabel p label) with
  | some p => if truthyStr p.url then normalizeUrl p.url else none
  | none => none

/-- The preference loop of `pickPlaybackUrl` over its label list. -/
def labelLoop (pbs : List Playback) : List String → Option String
  | [] => none
  | l :: ls =>
      match labelStep pbs l with
      | some u => some u
      | none => labelLoop pbs ls

/-- Source constant `preferredOrder` inside `pickPlaybackUrl`. -/
def preferredOrder : List String :=
  ["mp4avcadaptive", "mp4avchd", "mp4avc", "mp4", "http_cloud_mobile", "http_cloud_tablet"]

/-- Test used by the `.mp4` fallback of `pickPlaybackUrl`:
`playback?.url?.toLowerCase().endsWith('.mp4')`. -/
def urlEndsWithMp4 (p : Playback) : Bool :=
  match p.url with
  | none => false
  | some u => strEndsWith (strLower u) ".mp4"

/-- Source `pickPlaybackUrl` (lines 531-562): try the labels of
`preferredOrder` in order, then the first encoding whose URL ends in
`.mp4`, then the first encoding's URL; `undefined` or empty input yields
`undefined`. -/
def pickPlaybackUrl : Option (List Playback) → Option String
  | none => none
  | some pbs =>
      if pbs.isEmpty then none
      else
        match labelLoop pbs preferredOrder with
        | some u => some u
        | none =>
            match pbs.find? urlEndsWithMp4 with
            | some p =>
                if truthyStr p.url then normalizeUrl p.url
                else normalizeUrl (pbs.head?.bind Playback.url)
            | none => normalizeUrl (pbs.head?.bind Playback.url)

/-- Source `pickEmbedUrl` (lines 564-578): first encoding whose URL
contains the substring `iframe` (case-sensitively), normalized. -/
def pickEmbedUrl : Option (List Playback) → Option String
  | none => none
  | some pbs =>
      match pbs.find? (fun p => match p.url with
        | some u => strIncludes u "iframe"
        | none => false) with
      | some p => if truthyStr p.url then normalizeUrl p.url else none
      | none => none

/-! ## `isCondensedItem` (source lines 500-526) and the spec-side predicate -/

/-- Source `isCondensedItem`: builds the list of the five descriptive
fields, drops the absent (`undefined`) and falsy (empty) ones, lowercases
them, and tests each for the substring `condensed`; if none matches and a
keyword list is present, tests each keyword value the same way. -/
def isCondensedItem : Option MediaItem → Bool
  | none => false
  | some it =>
      let sampleValues :=
        (([it.type, it.mediaPlaybackType, it.title, it.headline, it.slug].filterMap id).filter
          (fun v => v != "")).map strLower
      if sampleValues.any (fun v => strIncludes v "condensed") then
        true
      else
        match it.keywords with
        | some keywords =>
            keywords.any (fun k => match k.value with
              | some v => strIncludes (strLower v) "condensed"
              | none => false)
        | none => false

/-- Case-insensitive test for `condensed` in an optional field, following
the specification's words: absent fields never match. -/
def fieldHasCondensed : Option String → Bool
  | none => false
  | some v => strIncludes (strLower v) "condensed"

/-- The specification's description of the condensed-item heuristic
(section 4.4): a case-insensitive substring match of `condensed` succeeds
against the type tag, playback-type tag, title, headline, slug, or some
keyword value. -/
def condensedSpec (it : MediaItem) : Bool :=
  fieldHasCondensed it.type ||
  fieldHasCondensed it.mediaPlaybackType ||
  fieldHasCondensed it.title ||
  fieldHasCondensed it.headline ||
  fieldHasCondensed it.slug ||
  (match it.keywords with
   | some keywords => keywords.any (fun k => fieldHasCondensed k.value)
   | none => false)

/-- The condensed-item search of `fetchData` (lines 1097-1099): first item
of the flattened channel list satisfying `isCondensedItem`. -/
def findCondensed (items : List MediaItem) : Option MediaItem :=
  items.find? (fun it => isCondensedItem (some it))

/-! ## Calendar arithmetic

Instants are `Int` milliseconds since the Unix epoch; civil dates are
converted to and from day counts with the standard proleptic-Gregorian
algorithms (era/year-of-era decomposition), which agree with the
ECMAScript `Date.UTC` / `Intl` calendar on every date the pipeline uses. -/

/-- Civil triple (year, month, day) of a count of days since 1970-01-01. -/
def civilFromDays (z0 : Int) : Int × Int × Int :=
  let z := z0 + 719468
  let era := z.fdiv 146097
  let doe := z - era * 146097
  let yoe := (doe - doe.fdiv 1460 + doe.fdiv 36524 - doe.fdiv 146096).fdiv 365
  let y := yoe + era * 400
  let doy := doe - (365 * yoe + yoe.fdiv 4 - yoe.fdiv 100)
  let mp := (5 * doy + 2).fdiv 153
  let d := doy - (153 * mp + 2).fdiv 5 + 1
  let m := mp + (if mp < 10 then 3 else -9)
  (y + (if m ≤ 2 then 1 else 0), m, d)

/-- Days since 1970-01-01 of a civil (year, month, day) triple; this is
`Date.UTC(y, m - 1, d) / 86400000` for in-range months and days. -/
def daysFromCivil (y m d : Int) : Int :=
  let y2 := y - (if m ≤ 2 then 1 else 0)
  let era := y2.fdiv 400
  let yoe := y2 - era * 400
  let doy := (153 * (m + (if m > 2 then -3 else 9)) + 2).fdiv 5 + d - 1
  let doe := yoe * 365 + yoe.fdiv 4 - yoe.fdiv 100 + doy
  era * 146097 + doe - 719468

/-- Day of week of a day count, with Sunday = 0 (1970-01-01 was a Thursday). -/
def dayOfWeek (z : Int) : Int :=
  (z + 4).emod 7

/-- First Sunday on or after the given day count. -/
def sundayOnOrAfter (z : Int) : Int :=
  z + (7 - dayOfWeek z).emod 7

/-- Instant (UTC milliseconds) at which daylight-saving time starts in
`America/Los_Angeles` in year `y`: 2:00 PST (= 10:00 UTC) on the second
Sunday of March (statutory rule since 2007). -/
def dstStartMs (y : Int) : Int :=
  (sundayOnOrAfter (daysFromCivil y 3 1) + 7) * 86400000 + 10 * 3600000

/-- Instant (UTC milliseconds) at which daylight-saving time ends in
`America/Los_Angeles` in year `y`: 2:00 PDT (= 9:00 UTC) on the first
Sunday of November. -/
def dstEndMs (y : Int) : Int :=
  sundayOnOrAfter (daysFromCivil y 11 1) * 86400000 + 9 * 3600000

/-- UTC offset, in minutes, of `America/Los_Angeles` at a given instant:
-420 (PDT) inside the daylight-saving window of the instant's year and
-480 (PST) outside it.  This models every `Intl.DateTimeFormat` lookup
with `timeZone America/Los_Angeles` in the source. -/
def pacificOffsetAt (t : Int) : Int :=
  let y := (civilFromDays (t.fdiv 86400000)).1
  if dstStartMs y ≤ t ∧ t < dstEndMs y then -420 else -480

/-- Zero-padded two-digit rendering of a month or day number. -/
def pad2 (n : Int) : String :=
  if n < 10 then "0" ++ toString n else toString n

/-- The `en-CA` rendering `yyyy-mm-dd` of a civil triple. -/
def isoOfCivil (y m d : Int) : String :=
  toString y ++ "-" ++ pad2 m ++ "-" ++ pad2 d

/-- ISO rendering of a day count. -/
def isoOfDays (z : Int) : String :=
  match civilFromDays z with
  | (y, m, d) => isoOfCivil y m d

/-- Source `formatPacificIso` (line 312): the `en-CA` (`yyyy-mm-dd`)
rendering of an instant in `America/Los_Angeles`. -/
def formatPacificIso (t : Int) : String :=
  isoOfDays ((t + pacificOffsetAt t * 60000).fdiv 86400000)

/-- Model of `Number` applied to one fragment of `isoDate.split('-')`:
the empty fragment is 0, a digit fragment is its value, anything else is
NaN (`none`). -/
def jsNumberOfFragment (frag : List Char) : Option Int :=
  (digitsValue frag).map Int.ofNat

/-- The destructuring `const [year, month, day] = isoDate.split('-').map(Number)`
followed by the three `Number.isFinite` checks of `createDateFromIso`:
yields the triple when the first three fragments all parse, `none`
otherwise. -/
def parseIsoTriple (iso : String) : Option (Int × Int × Int) :=
  match (splitOnChar '-' iso.data).map jsNumberOfFragment with
  | some y :: some m :: some d :: _ => some (y, m, d)
  | _ => none

/-- Source `getPacificOffsetMinutes` (lines 266-287): the Pacific UTC
offset at instant `isoDate` T00:00:00Z, or the -480 default when the date
does not parse.  (The per-date memo cache is a pure lookup table and does
not change the value.) -/
def getPacificOffsetMinutes (iso : String) : Int :=
  match parseIsoTriple iso with
  | some (y, m, d) => pacificOffsetAt (daysFromCivil y m d * 86400000)
  | none => -480

/-- Source `createDateFromIso` (lines 289-307): anchor an ISO date at
Pacific midnight, `Date.UTC(year, month - 1, day) - offsetMinutes * 60000`.
The non-parsing fallback branch (`new Date(isoDate)`, whose value is
host-dependent) is modelled as `none`; every claim concerns parsed dates. -/
def createDateFromIso (iso : String) : Option Int :=
  match parseIsoTriple iso with
  | some (y, m, d) =>
      some (daysFromCivil y m d * 86400000 - getPacificOffsetMinutes iso * 60000)
  | none => none

/-- Source `addPacificDays` (lines 331-335): `setUTCDate(getUTCDate() + amount)`
on a copy, which shifts the instant by exactly `amount` UTC days. -/
def addPacificDays (dateMs : Int) (amount : Int) : Int :=
  dateMs + amount * 86400000

/-- Source `getPacificNow` (lines 387-388), parametrised by the host
timezone: `new Date(new Date().toLocaleString('en-US', Pacific))` renders
the Pacific wall-clock fields of the current instant and re-parses them in
the host timezone, producing an instant displaced by the difference of the
two offsets.  The host is modelled with a constant offset (in minutes),
faithful whenever the host zone has no transition near the instants
involved, and the instant is taken on a whole second (the locale string
carries no milliseconds). -/
def getPacificNow (hostOffsetMinutes nowMs : Int) : Int :=
  nowMs + (pacificOffsetAt nowMs - hostOffsetMinutes) * 60000

/-- Source `getPreviousDodgersDate` (lines 371-385), parametrised by the
host timezone offset: re-parse the Pacific wall clock in the host zone,
step back one host-local calendar day (one exact day under a constant
host offset), and render the result in Pacific time.  Returns the
`isoDate` field; the `displayDate` field is the `en-US` full-style
rendering of the same instant in the same timezone and is determined by
the same Pacific civil triple. -/
def getPreviousDodgersDate (hostOffsetMinutes nowMs : Int) : String :=
  let pacificNow := nowMs + (pacificOffsetAt nowMs - hostOffsetMinutes) * 60000
  formatPacificIso (pacificNow - 86400000)

/-! ## Schedule data model and completed-game selection -/

/-- The optional `status` object of a `RawGame`. -/
structure GameStatus where
  statusCode : Option String
  abstractGameState : Option String
  detailedState : Option String
  deriving DecidableEq, Repr

/-- Source type `RawGame`, restricted to the fields the selection logic
reads: the scheduled instant (`gameDate`, modelled as the parsed UTC
milliseconds of the timestamp string) and the status block. -/
structure RawGame where
  gamePk : Int
  gameDateMs : Int
  status : Option GameStatus
  deriving DecidableEq, Repr

/-- Source constant `FINAL_STATUS_CODES` (line 172), as the list backing
the JS `Set`. -/
def FINAL_STATUS_CODES : List String :=
  ["F", "FR", "O", "S", "X"]

/-- Source `isCompletedGame` (lines 487-498): status code (uppercased) in
the final set, or abstract state equal to `final` (lowercased), or
detailed state containing `final` or `completed` (lowercased); absent
fields default to the empty string. -/
def isCompletedGame (g : RawGame) : Bool :=
  let statusCode := strUpper ((g.status.bind GameStatus.statusCode).getD "")
  let abstractState := strLower ((g.status.bind GameStatus.abstractGameState).getD "")
  let detailedState := strLower ((g.status.bind GameStatus.detailedState).getD "")
  FINAL_STATUS_CODES.contains statusCode ||
  abstractState == "final" ||
  strIncludes detailedState "final" ||
  strIncludes detailedState "completed"

/-- Completed-game selection of `fetchLatestGame` (lines 717-732): filter
to completed games, sort by start time descending (the JS comparator
subtracts the `getTime()` values), and take the first whose start time is
at or before `now`. -/
def fetchLatestGameSelect (games : List RawGame) (nowMs : Int) : Option RawGame :=
  (((games.filter isCompletedGame).mergeSort
      (fun a b => decide (b.gameDateMs ≤ a.gameDateMs))).find?
    (fun g => decide (g.gameDateMs ≤ nowMs)))

/-! ## The media-URL composition of `fetchData` (lines 1079-1129) -/

/-- The channel flattening and condensed-item lookup of `fetchData`
(lines 1092-1099): concatenate `media.epg` and `media.epgAlternate`
(each defaulting to empty), flatten their item lists, and find the first
condensed item. -/
def condensedOfContent (c : GameContent) : Option MediaItem :=
  let channels :=
    match c.media with
    | some m => m.epg.getD [] ++ m.epgAlternate.getD []
    | none => []
  findCondensed (channels.flatMap (fun ch => ch.items.getD []))

/-- The `videoUrl`/`embedUrl` computation of `fetchData` before the final
fallback (lines 1079-1125).  The argument is the outcome of the content
fetch: `none` when the request failed, threw, or returned non-ok (the
variables stay `undefined`), `some c` when content was parsed.  When a
condensed item is found: `videoUrl` is `pickPlaybackUrl` of its
playbacks, replaced by the item's own normalized `url` when falsy and the
item URL is truthy; `embedUrl` is `pickEmbedUrl` of its playbacks,
defaulting (nullish-coalescing) to the item's normalized `playbackUrl`. -/
def fetchDataMediaUrls (contentResult : Option GameContent) : Option String × Option String :=
  match contentResult with
  | none => (none, none)
  | some c =>
      match condensedOfContent c with
      | none => (none, none)
      | some item =>
          let v0 := pickPlaybackUrl item.playbacks
          let videoUrl :=
            if !truthyStr v0 && truthyStr item.url then normalizeUrl item.url else v0
          let embedUrl :=
            match pickEmbedUrl item.playbacks with
            | some e => some e
            | none => normalizeUrl item.playbackUrl
          (videoUrl, embedUrl)

/-- The final composition rule of `fetchData` (lines 1127-1129): when both
`videoUrl` and `embedUrl` are falsy, substitute the fixed fallback
Streamable URL for `embedUrl`.  The pair feeds the `videoUrl`/`embedUrl`
fields of the resulting `GameDetails`. -/
def fetchDataUrls (contentResult : Option GameContent) : Option String × Option String :=
  let p := fetchDataMediaUrls contentResult
  if !truthyStr p.1 && !truthyStr p.2 then (p.1, some FALLBACK_STREAMABLE)
  else p

/-! ## Fetch lifecycle (cancellation and commit guards of `fetchData`)

The guard structure below is taken from the effect body of `fetchData`
(lines 1035-1184): every state write after an `await` is dominated by a
check of the closure flag `active`, the `catch` block returns before
`setError` when the rejection is named `AbortError`, and the cleanup
(lines 1180-1183) sets `active` to `false` and aborts the controller.

Modelled from the spec: the scheduling discipline of the hosting runtime
(React), which is not part of `src/` — an effect's cleanup runs before
the next issue of the same effect, so at any point exactly the most
recently issued operation has `active = true`. The system state below
therefore marks operation `k` active exactly when `k` equals the issue
counter. -/

/-- The visible state slots written by `fetchData`. -/
structure GameSlotState where
  loading : Bool
  error : Option String
  noGame : Bool
  gameDetails : Option (Option String × Option String)
  deriving DecidableEq, Repr

/-- Outcome of one `fetchData` run, as observed by its continuation after
the awaits: a completed game with its selected URL pair, no completed
game for the date, or a rejection carrying the error's `name` and
`message`. -/
inductive FetchOutcome where
  | success (details : Option String × Option String)
  | noGameFound
  | failure (name message : String)
  deriving DecidableEq, Repr

/-- The synchronous writes at the top of `fetchData` (lines 1036-1039),
performed when an operation is issued. -/
def fetchDataStart (_st : GameSlotState) : GameSlotState :=
  { loading := true, error := none, noGame := false, gameDetails := none }

/-- The commit phase of `fetchData` (lines 1061-1066, 1131-1175): each
write is guarded by the operation's `active` flag, and a rejection named
`AbortError` returns before `setError`. -/
def fetchDataComplete (active : Bool) (st : GameSlotState) (o : FetchOutcome) : GameSlotState :=
  match o with
  | .success d =>
      if active then { st with gameDetails := some d, loading := false } else st
  | .noGameFound =>
      if active then { st with noGame := true, loading := false } else st
  | .failure n m =>
      if active then
        if n == "AbortError" then { st with loading := false }
        else { st with error := some m, loading := false }
      else st

/-- System state of the effect slot: the number of operations issued so
far (operation `k` is active iff `k = issued`, per the cleanup-before-
reissue discipline) and the visible state. -/
structure FetchSystem where
  issued : Nat
  st : GameSlotState
  deriving DecidableEq, Repr

/-- Events of the effect slot: a new request (the previous operation's
cleanup runs, then the next operation is issued and performs its initial
writes) or the arrival of operation `k`'s outcome. -/
inductive FetchEvent where
  | newRequest
  | arrival (op : Nat) (o : FetchOutcome)
  deriving DecidableEq, Repr

/-- One step of the effect slot. -/
def fetchStep (s : FetchSystem) : FetchEvent → FetchSystem
  | .newRequest => { issued := s.issued + 1, st := fetchDataStart s.st }
  | .arrival k o => { s with st := fetchDataComplete (k == s.issued) s.st o }

/-! ## Address-bar date state (`getDateFromLocation`, `updateDateInUrl`) -/

/-- Source constant `ISO_DATE_PATTERN` (line 205), the anchored regex
`^\d\d\d\d-\d\d-\d\d$` with `\d\{4\}` and `\d\{2\}` groups: exactly ten
characters, digits at positions 0-3, 5-6 and 8-9 and a dash at
positions 4 and 7. -/
def isoDatePattern (s : String) : Bool :=
  match s.data with
  | [a, b, c, d, h1, e, f, h2, g, h] =>
      a.isDigit && b.isDigit && c.isDigit && d.isDigit && h1 == '-' &&
      e.isDigit && f.isDigit && h2 == '-' && g.isDigit && h.isDigit
  | _ => false

/-- Source `getDateFromLocation` (lines 207-224), with the browser
boundary made explicit: `windowDefined` is the `typeof window` guard and
`parsed` is the outcome of `new URL(window.location.href)` together with
`searchParams.get('date')` — `none` when the URL constructor throws,
`some q` when it parses with query parameter `q`.  The parameter is
defaulted to the empty string, trimmed, and returned only when it matches
the ISO pattern. -/
def getDateFromLocation (windowDefined : Bool) (parsed : Option (Option String)) :
    Option String :=
  if !windowDefined then none
  else
    match parsed with
    | none => none
    | some q =>
        let dateParam := strTrim (q.getD "")
        if isoDatePattern dateParam then some dateParam else none

/-- The history actions `updateDateInUrl` can perform. -/
inductive HistoryAction where
  | pushState
  | replaceState
  deriving DecidableEq, Repr

/-- Source `updateDateInUrl` (lines 226-252), returning the history write
it performs, if any.  The browser boundary is explicit: `windowDefined`
and `historyOk` are the two early guards, `currentValue` is the current
`date` query parameter, and `currentUrlEqNew` tells whether the
serialized current URL already equals the new one (the `replace` branch
compares the two strings).  A value failing the ISO pattern is refused
before any of this. -/
def updateDateInUrl (windowDefined historyOk : Bool) (isoDate : String)
    (replace : Bool) (currentValue : Option String) (currentUrlEqNew : Bool) :
    Option HistoryAction :=
  if !windowDefined || !isoDatePattern isoDate then none
  else if !historyOk then none
  else if replace then
    if currentUrlEqNew then none else some .replaceState
  else
    if currentValue == some isoDate then none else some .pushState

/-! ## Theorems for the claims -/

/-- Helper: the day-shift round trip of `addPacificDays` is the identity
on instants. -/
theorem addPacificDays_add_neg (d n : Int) :
    addPacificDays (addPacificDays d n) (-n) = d := by
  unfold addPacificDays
  ring

/-- Claim C8: for every instant `d` and integer `n`,
`addPacificDays (addPacificDays d n) (-n)` is exactly `d` — the same
instant, and hence the same formatted Pacific civil date — including when
the shift crosses daylight-saving transition dates. -/
theorem addPacificDays_roundtrip (d n : Int) :
    addPacificDays (addPacificDays d n) (-n) = d ∧
    formatPacificIso (addPacificDays (addPacificDays d n) (-n)) = formatPacificIso d := by
  refine ⟨addPacificDays_add_neg d n, ?_⟩
  rw [addPacificDays_add_neg d n]

/-- Claim C4 (code bug): anchoring 2025-11-01 at Pacific midnight with
`createDateFromIso` and stepping forward with `addPacificDays` crosses
the end of daylight-saving time on 2025-11-02, and the Pacific rendering
repeats the civil date 2025-11-02 — the formatted day sequence is not
consecutive, contradicting the requirement that day arithmetic neither
skip nor repeat a calendar day at a DST transition. -/
theorem addPacificDays_dst_repeats_date :
    (createDateFromIso "2025-11-01").map
        (fun t => [formatPacificIso (addPacificDays t 0),
          formatPacificIso (addPacificDays t 1),
          formatPacificIso (addPacificDays t 2)]) =
      some ["2025-11-01", "2025-11-02", "2025-11-02"] := by
  decide

/-- Claim C3 (code bug): `getPreviousDodgersDate` and `getPacificNow`
re-parse a Pacific wall-clock string in the host timezone, so their
results depend on the host machine's offset.  At the instant
2025-06-15T07:10:00Z a host running at Pacific offset (-420 minutes at
that instant) resolves yesterday as 2025-06-14, while a UTC host
(offset 0) resolves 2025-06-13; formatting `getPacificNow` in Pacific
time likewise differs between the two hosts. -/
theorem getPreviousDodgersDate_host_dependent :
    getPreviousDodgersDate (-420) (daysFromCivil 2025 6 15 * 86400000 + 430 * 60000) =
      "2025-06-14" ∧
    getPreviousDodgersDate 0 (daysFromCivil 2025 6 15 * 86400000 + 430 * 60000) =
      "2025-06-13" ∧
    formatPacificIso (getPacificNow (-420) (daysFromCivil 2025 6 15 * 86400000 + 430 * 60000)) =
      "2025-06-15" ∧
    formatPacificIso (getPacificNow 0 (daysFromCivil 2025 6 15 * 86400000 + 430 * 60000)) =
      "2025-06-14" := by
  decide

/-- Helper: outcomes other than `success` never change the committed game
details. -/
theorem fetchDataComplete_gameDetails_stable (a : Bool) (st : GameSlotState) :
    ∀ o : FetchOutcome, (∀ d, o ≠ .success d) →
      (fetchDataComplete a st o).gameDetails = st.gameDetails := by
  intro o ho
  cases o with
  | success d => exact absurd rfl (ho d)
  | noGameFound => cases a <;> simp [fetchDataComplete]
  | failure n m =>
      cases a with
      | false => simp [fetchDataComplete]
      | true =>
          by_cases hn : (n == "AbortError") = true <;>
            simp [fetchDataComplete, hn]

/-- Claim C9: a superseded `fetchData` operation commits nothing — an
arrival for any operation other than the most recently issued one leaves
the whole system state unchanged; a rejection named `AbortError` is never
written to the error state; and the committed game details can change
only through a success arrival of the currently latest operation. -/
theorem fetchData_supersede_guard :
    (∀ (s : FetchSystem) (k : Nat) (o : FetchOutcome),
        k ≠ s.issued → fetchStep s (.arrival k o) = s) ∧
    (∀ (a : Bool) (st : GameSlotState) (m : String),
        (fetchDataComplete a st (.failure "AbortError" m)).error = st.error) ∧
    (∀ (s : FetchSystem) (ev : FetchEvent) (d : Option String × Option String),
        (fetchStep s ev).st.gameDetails = some d →
        s.st.gameDetails = some d ∨ ev = .arrival s.issued (.success d)) := by
  refine ⟨?_, ?_, ?_⟩
  · intro s k o hk
    have hbeq : (k == s.issued) = false := by
      simp [hk]
    cases o <;> simp [fetchStep, fetchDataComplete, hbeq]
  · intro a st m
    cases a <;> simp [fetchDataComplete]
  · intro s ev d h
    cases ev with
    | newRequest => simp [fetchStep, fetchDataStart] at h
    | arrival k o =>
        cases o with
        | success d2 =>
            by_cases hk : k = s.issued
            · subst hk
              simp only [fetchStep, beq_self_eq_true, fetchDataComplete, if_true] at h
              simp only [Option.some.injEq] at h
              subst h
              exact Or.inr rfl
            · have hbeq : (k == s.issued) = false := by
                simp [hk]
              simp [fetchStep, fetchDataComplete, hbeq] at h
              exact Or.inl h
        | noGameFound =>
            rw [show (fetchStep s (.arrival k .noGameFound)).st =
                fetchDataComplete (k == s.issued) s.st .noGameFound from rfl,
              fetchDataComplete_gameDetails_stable _ _ _ (by intro d2 hcontra; cases hcontra)] at h
            exact Or.inl h
        | failure n m =>
            rw [show (fetchStep s (.arrival k (.failure n m))).st =
                fetchDataComplete (k == s.issued) s.st (.failure n m) from rfl,
              fetchDataComplete_gameDetails_stable _ _ _ (by intro d2 hcontra; cases hcontra)] at h
            exact Or.inl h

/-- Witness for claim C9: a concrete superseded arrival (operation 1
arriving after operation 2 was issued) leaves the system unchanged. -/
theorem fetchData_supersede_guard_witness :
    fetchStep ⟨2, ⟨false, none, false, none⟩⟩ (.arrival 1 (.success (none, none))) =
      ⟨2, ⟨false, none, false, none⟩⟩ :=
  fetchData_supersede_guard.1 ⟨2, ⟨false, none, false, none⟩⟩ 1 (.success (none, none))
    (by decide)

/-- Claim C10: the selected-date field at the address-bar interface always
has the strict ISO `yyyy-mm-dd` shape — `getDateFromLocation` yields only
strings matching the anchored pattern, yields `none` on URL parse
failures and non-matching parameters, yields the trimmed parameter when
it does match, and `updateDateInUrl` performs no history write for a
value failing the pattern. -/
theorem url_date_strict_iso :
    (∀ w p d, getDateFromLocation w p = some d → isoDatePattern d = true) ∧
    (∀ w, getDateFromLocation w none = none) ∧
    (∀ w q, isoDatePattern (strTrim (q.getD "")) = false →
        getDateFromLocation w (some q) = none) ∧
    (∀ q, isoDatePattern (strTrim (q.getD "")) = true →
        getDateFromLocation true (some q) = some (strTrim (q.getD ""))) ∧
    (∀ w hOk iso r cv ce, isoDatePattern iso = false →
        updateDateInUrl w hOk iso r cv ce = none) := by
  refine ⟨?_, ?_, ?_, ?_, ?_⟩
  · intro w p d h
    cases w with
    | false => simp [getDateFromLocation] at h
    | true =>
        cases p with
        | none => simp [getDateFromLocation] at h
        | some q =>
            simp only [getDateFromLocation, Bool.not_true, Bool.false_eq_true,
              if_false] at h
            split at h
            · rename_i hpat
              obtain rfl : strTrim (q.getD "") = d := by
                injection h
              exact hpat
            · cases h
  · intro w
    cases w <;> simp [getDateFromLocation]
  · intro w q hq
    cases w <;> simp [getDateFromLocation, hq]
  · intro q hq
    simp [getDateFromLocation, hq]
  · intro w hOk iso r cv ce hiso
    simp [updateDateInUrl, hiso]

/-- Witness for claim C10: a concrete padded valid parameter is accepted
trimmed, and a concrete malformed value is refused by `updateDateInUrl`. -/
theorem url_date_strict_iso_witness :
    getDateFromLocation true (some (some " 2025-09-14 ")) = some (strTrim " 2025-09-14 ") ∧
    updateDateInUrl true true "2025-13-99x" false none false = none :=
  ⟨url_date_strict_iso.2.2.2.1 (some " 2025-09-14 ") (by decide),
   url_date_strict_iso.2.2.2.2 true true "2025-13-99x" false none false (by decide)⟩

/-- Helper: uppercasing the empty string. -/
theorem strUpper_empty : strUpper "" = "" := rfl

/-- Helper: lowercasing the empty string. -/
theorem strLower_empty : strLower "" = "" := rfl

/-- Helper: the empty string does not contain `final`. -/
theorem strIncludes_empty_final : strIncludes "" "final" = false := rfl

/-- Helper: the empty string does not contain `completed`. -/
theorem strIncludes_empty_completed : strIncludes "" "completed" = false := rfl

/-- Claim C7: `isCompletedGame` returns true exactly when the uppercased
status code is one of F, FR, O, S, X, or the abstract game state equals
`final` case-insensitively, or the detailed state contains `final` or
`completed` case-insensitively; absent status fields simply fail to
match, they never fail the check. -/
theorem isCompletedGame_characterization (g : RawGame) :
    isCompletedGame g = true ↔
      ((∃ c, g.status.bind GameStatus.statusCode = some c ∧
          (strUpper c = "F" ∨ strUpper c = "FR" ∨ strUpper c = "O" ∨
            strUpper c = "S" ∨ strUpper c = "X")) ∨
       (∃ a, g.status.bind GameStatus.abstractGameState = some a ∧ strLower a = "final") ∨
       (∃ d, g.status.bind GameStatus.detailedState = some d ∧
          (strIncludes (strLower d) "final" = true ∨
            strIncludes (strLower d) "completed" = true))) := by
  rcases g with ⟨pk, dt, st⟩
  rcases st with _ | ⟨sc, ab, de⟩
  · simp [isCompletedGame, FINAL_STATUS_CODES, strUpper_empty, strLower_empty,
      strIncludes_empty_final, strIncludes_empty_completed]
  · rcases sc with _ | c <;> rcases ab with _ | a <;> rcases de with _ | d <;>
      simp [isCompletedGame, FINAL_STATUS_CODES, List.contains_cons,
        beq_iff_eq, Option.bind, strUpper_empty, strLower_empty,
        strIncludes_empty_final, strIncludes_empty_completed, or_assoc]

/-- Helper: dropping the falsy (empty) strings does not change an `any`
whose predicate fails on the empty string. -/
theorem any_filter_ne_empty (p : String → Bool) (hp : p "" = false) :
    ∀ l : List String, ((l.filter (fun v => v != "")).any p) = l.any p := by
  intro l
  induction l with
  | nil => rfl
  | cons x xs ih =>
      by_cases hx : x = ""
      · subst hx
        simp [List.filter_cons, ih, hp]
      · have hxb : (x != "") = true := by simp [hx]
        simp [List.filter_cons, hxb, ih]

/-- Helper: `any` after `filterMap id` tests each present value. -/
theorem any_filterMap_id (q : String → Bool) :
    ∀ l : List (Option String),
      ((l.filterMap id).any q) = l.any (fun o => (o.map q).getD false) := by
  intro l
  induction l with
  | nil => rfl
  | cons x xs ih => cases x <;> simp [List.filterMap_cons, ih]

/-- Helper: the multi-field test of the source `isCondensedItem` agrees
with the specification's OR-composition `condensedSpec` on every item. -/
theorem isCondensedItem_eq_condensedSpec (it : MediaItem) :
    isCondensedItem (some it) = condensedSpec it := by
  have hp : ((fun v => strIncludes v "condensed") ∘ strLower) "" = false := rfl
  have hfield : ∀ o : Option String,
      ((o.map ((fun v => strIncludes v "condensed") ∘ strLower)).getD false) =
        fieldHasCondensed o := by
    intro o
    cases o <;> rfl
  rcases it with ⟨ty, ti, he, bl, de, ca, u, pu, sl, mpt, kw, pb⟩
  simp only [isCondensedItem, condensedSpec]
  rw [List.any_map, any_filter_ne_empty _ hp, any_filterMap_id]
  simp only [List.any_cons, List.any_nil, hfield]
  rw [Bool.if_true_left]
  simp only [Bool.decide_eq_true, Bool.or_false, Bool.or_assoc]
  have hkw : (fun k : MediaKeyword => match k.value with
      | some v => strIncludes (strLower v) "condensed"
      | none => false) = fun k => fieldHasCondensed k.value := by
    funext k
    cases hk : k.value <;> simp [fieldHasCondensed, hk]
  cases kw with
  | none => rfl
  | some ks => rw [hkw]

/-- Helper: a successful `find?` splits its list at the first match. -/
theorem find?_eq_some_split {α : Type} (p : α → Bool) :
    ∀ (l : List α) (b : α), l.find? p = some b →
      p b = true ∧ ∃ pre post, l = pre ++ b :: post ∧ ∀ a ∈ pre, p a = false := by
  intro l
  induction l with
  | nil => intro b h; cases h
  | cons x xs ih =>
      intro b h
      by_cases hx : p x = true
      · rw [List.find?_cons_of_pos _ hx] at h
        injection h with h
        subst h
        exact ⟨hx, [], xs, rfl, by simp⟩
      · rw [List.find?_cons_of_neg _ hx] at h
        obtain ⟨hb, pre, post, hsplit, hpre⟩ := ih b h
        refine ⟨hb, x :: pre, post, by rw [hsplit, List.cons_append], ?_⟩
        intro a ha
        rcases List.mem_cons.mp ha with rfl | ha2
        · exact Bool.eq_false_iff.mpr (fun hcontra => hx hcontra)
        · exact hpre a ha2

/-- Claim C6: the condensed-item search returns the first item in input
order whose fields match the case-insensitive `condensed` heuristic
(type, playback type, title, headline, slug, or any keyword value); it
returns `none` on the empty list and on any list in which no item
matches. -/
theorem findCondensed_characterization :
    findCondensed [] = none ∧
    (∀ items : List MediaItem, (∀ it ∈ items, condensedSpec it = false) →
        findCondensed items = none) ∧
    (∀ (items : List MediaItem) (it : MediaItem), findCondensed items = some it →
        condensedSpec it = true ∧
        ∃ pre post, items = pre ++ it :: post ∧ ∀ j ∈ pre, condensedSpec j = false) := by
  have hfun : (fun it => isCondensedItem (some it)) = condensedSpec :=
    funext isCondensedItem_eq_condensedSpec
  refine ⟨rfl, ?_, ?_⟩
  · intro items hall
    unfold findCondensed
    rw [hfun, List.find?_eq_none]
    intro x hx
    simp [hall x hx]
  · intro items it h
    unfold findCondensed at h
    rw [hfun] at h
    obtain ⟨hb, pre, post, hsplit, hpre⟩ := find?_eq_some_split condensedSpec items it h
    exact ⟨hb, pre, post, hsplit, hpre⟩

/-- An item with no fields at all, used by witnesses. -/
def blankMediaItem : MediaItem :=
  ⟨none, none, none, none, none, none, none, none, none, none, none, none⟩

/-- An item tagged as a condensed game, used by witnesses. -/
def condensedMediaItem : MediaItem :=
  { blankMediaItem with title := some "CG: Condensed Game 9/14/25" }

/-- Witness for claim C6: the search skips a blank item and returns the
first condensed-tagged item of a concrete list. -/
theorem findCondensed_characterization_witness :
    findCondensed [blankMediaItem] = none ∧
    (condensedSpec condensedMediaItem = true ∧
      ∃ pre post, [blankMediaItem, condensedMediaItem] = pre ++ condensedMediaItem :: post ∧
        ∀ j ∈ pre, condensedSpec j = false) :=
  ⟨findCondensed_characterization.2.1 [blankMediaItem] (by decide),
   findCondensed_characterization.2.2 [blankMediaItem, condensedMediaItem]
     condensedMediaItem (by decide)⟩

/-- Helper: in a list sorted by start time descending, the first element
at or before `nowMs` dominates every element at or before `nowMs`. -/
theorem find?_max_of_sorted_desc (nowMs : Int) :
    ∀ l : List RawGame,
      List.Pairwise (fun a b => (decide (b.gameDateMs ≤ a.gameDateMs)) = true) l →
      ∀ g, l.find? (fun g => decide (g.gameDateMs ≤ nowMs)) = some g →
      ∀ x ∈ l, x.gameDateMs ≤ nowMs → x.gameDateMs ≤ g.gameDateMs := by
  intro l
  induction l with
  | nil => intro _ g h; cases h
  | cons a t ih =>
      intro hs g hf x hx hxnow
      rw [List.pairwise_cons] at hs
      by_cases ha : a.gameDateMs ≤ nowMs
      · rw [List.find?_cons_of_pos _ (by simpa using ha)] at hf
        injection hf with hf
        subst hf
        rcases List.mem_cons.mp hx with rfl | hx2
        · exact le_refl _
        · simpa using hs.1 x hx2
      · rw [List.find?_cons_of_neg _ (by simpa using ha)] at hf
        rcases List.mem_cons.mp hx with rfl | hx2
        · exact absurd hxnow ha
        · exact ih hs.2 g hf x hx2 hxnow

/-- Claim C5: the completed-game selection of `fetchLatestGame` never
returns a game starting after `nowMs`; when it returns a game, that game
is a completed member of the input whose start time is maximal among the
completed games starting at or before `nowMs`; and it returns `none`
exactly when no completed game starts at or before `nowMs`. -/
theorem fetchLatestGame_selection (games : List RawGame) (nowMs : Int) :
    (∀ g, fetchLatestGameSelect games nowMs = some g →
        g ∈ games ∧ isCompletedGame g = true ∧ g.gameDateMs ≤ nowMs ∧
        ∀ g2 ∈ games, isCompletedGame g2 = true → g2.gameDateMs ≤ nowMs →
          g2.gameDateMs ≤ g.gameDateMs) ∧
    (fetchLatestGameSelect games nowMs = none ↔
      ∀ g ∈ games, isCompletedGame g = true → nowMs < g.gameDateMs) := by
  have hsel : fetchLatestGameSelect games nowMs =
      ((games.filter isCompletedGame).mergeSort
          (fun a b => decide (b.gameDateMs ≤ a.gameDateMs))).find?
        (fun g => decide (g.gameDateMs ≤ nowMs)) := rfl
  have hperm : ((games.filter isCompletedGame).mergeSort
      (fun a b => decide (b.gameDateMs ≤ a.gameDateMs))).Perm
      (games.filter isCompletedGame) := List.mergeSort_perm _ _
  have hmem : ∀ x : RawGame,
      x ∈ (games.filter isCompletedGame).mergeSort
          (fun a b => decide (b.gameDateMs ≤ a.gameDateMs)) ↔
        x ∈ games ∧ isCompletedGame x = true := by
    intro x
    rw [hperm.mem_iff, List.mem_filter]
  have hpair : List.Pairwise
      (fun a b : RawGame => (decide (b.gameDateMs ≤ a.gameDateMs)) = true)
      ((games.filter isCompletedGame).mergeSort
        (fun a b => decide (b.gameDateMs ≤ a.gameDateMs))) := by
    apply List.sorted_mergeSort
    · intro a b c hab hbc
      simp only [decide_eq_true_eq] at hab hbc ⊢
      omega
    · intro a b
      by_cases h : b.gameDateMs ≤ a.gameDateMs
      · simp [h]
      · have h2 : a.gameDateMs ≤ b.gameDateMs := by omega
        simp [h2]
  constructor
  · intro g hg
    rw [hsel] at hg
    have hgmem := List.mem_of_find?_eq_some hg
    have hgnow : g.gameDateMs ≤ nowMs := by simpa using List.find?_some hg
    obtain ⟨hg1, hg2⟩ := (hmem g).mp hgmem
    refine ⟨hg1, hg2, hgnow, ?_⟩
    intro g2 hg2mem hg2c hg2now
    exact find?_max_of_sorted_desc nowMs _ hpair g hg g2 ((hmem g2).mpr ⟨hg2mem, hg2c⟩) hg2now
  · rw [hsel, List.find?_eq_none]
    constructor
    · intro h g hgmem hgc
      have h2 := h g ((hmem g).mpr ⟨hgmem, hgc⟩)
      simp only [decide_eq_true_eq] at h2
      omega
    · intro h x hx
      obtain ⟨hx1, hx2⟩ := (hmem x).mp hx
      have h2 := h x hx1 hx2
      simp only [decide_eq_true_eq]
      omega

/-- A completed game starting at instant 100, used by witnesses. -/
def gameAt100 : RawGame := ⟨1, 100, some ⟨some "F", none, none⟩⟩

/-- A completed game starting at instant 200, used by witnesses. -/
def gameAt200 : RawGame := ⟨2, 200, some ⟨some "F", none, none⟩⟩

/-- A completed game starting at instant 400, used by witnesses. -/
def gameAt400 : RawGame := ⟨3, 400, some ⟨some "F", none, none⟩⟩

/-- Witness for claim C5: on a concrete schedule with completed games at
100, 200 and 400 and `nowMs = 300`, the selection picks the game at 200 —
a completed in-range member dominating the other in-range candidates —
and the selection over the empty schedule is `none`. -/
theorem fetchLatestGame_selection_witness :
    (gameAt200 ∈ [gameAt100, gameAt200, gameAt400] ∧
      isCompletedGame gameAt200 = true ∧ gameAt200.gameDateMs ≤ 300 ∧
      ∀ g2 ∈ [gameAt100, gameAt200, gameAt400], isCompletedGame g2 = true →
        g2.gameDateMs ≤ 300 → g2.gameDateMs ≤ gameAt200.gameDateMs) ∧
    fetchLatestGameSelect [] 0 = none :=
  ⟨(fetchLatestGame_selection [gameAt100, gameAt200, gameAt400] 300).1 gameAt200
      (by simp +decide [fetchLatestGameSelect, List.mergeSort, gameAt100, gameAt200, gameAt400]),
   (fetchLatestGame_selection [] 0).2.mpr (by simp)⟩

/-- Helper: the final fallback of `pickPlaybackUrl` returns the
normalization of some member's URL whenever it returns a URL. -/
theorem head_normalize_provenance (pbs : List Playback) (u : String)
    (h : normalizeUrl (pbs.head?.bind Playback.url) = some u) :
    ∃ p ∈ pbs, normalizeUrl p.url = some u := by
  cases pbs with
  | nil => exact Option.noConfusion h
  | cons p0 rest => exact ⟨p0, List.mem_cons_self _ _, h⟩

/-- Helper: the label-preference loop returns the normalization of some
member's URL whenever it returns a URL. -/
theorem labelLoop_provenance (pbs : List Playback) :
    ∀ ls u, labelLoop pbs ls = some u → ∃ p ∈ pbs, normalizeUrl p.url = some u := by
  intro ls
  induction ls with
  | nil => intro u h; cases h
  | cons l ls2 ih =>
      intro u h
      simp only [labelLoop] at h
      cases hstep : labelStep pbs l with
      | some v =>
          rw [hstep] at h
          injection h with h
          subst h
          simp only [labelStep] at hstep
          split at hstep
          · rename_i p hf
            split at hstep
            · exact ⟨p, List.mem_of_find?_eq_some hf, hstep⟩
            · cases hstep
          · cases hstep
      | none =>
          rw [hstep] at h
          exact ih u h

/-- Helper: every URL returned by `pickPlaybackUrl` is the normalization
of the URL of some input encoding. -/
theorem pickPlaybackUrl_provenance (pbs : List Playback) (u : String)
    (h : pickPlaybackUrl (some pbs) = some u) :
    ∃ p ∈ pbs, normalizeUrl p.url = some u := by
  simp only [pickPlaybackUrl] at h
  split at h
  · cases h
  · split at h
    · rename_i v hl
      injection h with h
      subst h
      exact labelLoop_provenance pbs preferredOrder _ hl
    · rename_i hl
      split at h
      · rename_i p hf
        split at h
        · exact ⟨p, List.mem_of_find?_eq_some hf, h⟩
        · exact head_normalize_provenance pbs u h
      · exact head_normalize_provenance pbs u h

/-- Helper: when the first encoding carries a URL, `pickPlaybackUrl`
returns a URL. -/
theorem pickPlaybackUrl_head_some (p : Playback) (rest : List Playback)
    (hp : p.url.isSome = true) : (pickPlaybackUrl (some (p :: rest))).isSome = true := by
  obtain ⟨s, hs⟩ := Option.isSome_iff_exists.mp hp
  simp only [pickPlaybackUrl]
  split
  · rename_i hemp
    simp at hemp
  · split
    · rfl
    · split
      · rename_i q hf
        split
        · rename_i ht
          obtain ⟨s2, hs2⟩ : ∃ s2, q.url = some s2 := by
            cases hq : q.url
            · rw [hq] at ht; cases ht
            · exact ⟨_, rfl⟩
          simp [hs2, normalizeUrl]
        · simp [hs, normalizeUrl]
      · simp [hs, normalizeUrl]

/-- Helper: a first-label match with a truthy URL decides the result of
`pickPlaybackUrl`. -/
theorem pickPlaybackUrl_top_label (pbs : List Playback) (p : Playback)
    (hf : pbs.find? (fun q => nameHasLabel q "mp4avcadaptive") = some p)
    (ht : truthyStr p.url = true) :
    pickPlaybackUrl (some pbs) = normalizeUrl p.url := by
  have hne : pbs ≠ [] := by
    intro hnil
    subst hnil
    cases hf
  have hemp : pbs.isEmpty = false := by
    cases pbs
    · exact absurd rfl hne
    · rfl
  obtain ⟨s, hs⟩ : ∃ s, p.url = some s := by
    cases hu : p.url
    · rw [hu] at ht; cases ht
    · exact ⟨_, rfl⟩
  have hstep : labelStep pbs "mp4avcadaptive" = normalizeUrl p.url := by
    simp only [labelStep, hf, ht, if_true]
  have hloop : labelLoop pbs preferredOrder = normalizeUrl p.url := by
    show labelLoop pbs ("mp4avcadaptive" ::
      ["mp4avchd", "mp4avc", "mp4", "http_cloud_mobile", "http_cloud_tablet"]) = _
    simp only [labelLoop, hstep, hs, normalizeUrl]
  simp only [pickPlaybackUrl, hemp, Bool.false_eq_true, if_false, hloop, hs, normalizeUrl]

/-- Helper: `normalizeUrl` leaves a URL without the insecure scheme
untouched. -/
theorem normalizeUrl_no_upgrade (u : String)
    (h : strStartsWith (strLower u) "http://" = false) :
    normalizeUrl (some u) = some u := by
  simp [normalizeUrl, h]

/-- Helper: `normalizeUrl` rewrites exactly the seven leading scheme
characters of an insecure URL. -/
theorem normalizeUrl_upgrade (u : String)
    (h : strStartsWith (strLower u) "http://" = true) :
    normalizeUrl (some u) = some ("https://" ++ strDrop u 7) := by
  simp [normalizeUrl, h]

/-- Claim C2 counterexample: `pickPlaybackUrl` returns `none` on a
nonempty encoding list — a single encoding whose name matches the top
preference label but which carries no URL — refuting the claim that it
returns `none` only when the input list is empty. -/
theorem pickPlaybackUrl_none_on_nonempty :
    pickPlaybackUrl (some [⟨some "mp4avcadaptive", none⟩]) = none ∧
    ([(⟨some "mp4avcadaptive", none⟩ : Playback)] ≠ ([] : List Playback)) :=
  ⟨by decide, by decide⟩

/-- Claim C2 (amended): `pickPlaybackUrl` matches the labels in the fixed
preference order case-insensitively, as its result on the specification's
example shows; it returns `none` on an absent or empty list, and on a
nonempty list it can return `none` only when the stage it reaches finds
no URL (it always returns a URL when the first encoding carries one);
every URL it returns is the URL of some input encoding, normalized by
rewriting a case-insensitive leading insecure scheme to `https://` and
changing nothing else. -/
theorem pickPlaybackUrl_amended :
    pickPlaybackUrl (some [⟨some "http_cloud_tablet", some "http://a/x.m3u8"⟩,
        ⟨some "mp4Avc", some "http://a/y.mp4"⟩]) = some "https://a/y.mp4" ∧
    pickPlaybackUrl none = none ∧
    pickPlaybackUrl (some []) = none ∧
    (∀ (pbs : List Playback) (u : String), pickPlaybackUrl (some pbs) = some u →
        ∃ p ∈ pbs, normalizeUrl p.url = some u) ∧
    (∀ (p : Playback) (rest : List Playback), p.url.isSome = true →
        (pickPlaybackUrl (some (p :: rest))).isSome = true) ∧
    (∀ (pbs : List Playback) (p : Playback),
        pbs.find? (fun q => nameHasLabel q "mp4avcadaptive") = some p →
        truthyStr p.url = true → pickPlaybackUrl (some pbs) = normalizeUrl p.url) ∧
    (∀ u : String, strStartsWith (strLower u) "http://" = false →
        normalizeUrl (some u) = some u) ∧
    (∀ u : String, strStartsWith (strLower u) "http://" = true →
        normalizeUrl (some u) = some ("https://" ++ strDrop u 7)) :=
  ⟨by decide, rfl, rfl, pickPlaybackUrl_provenance, pickPlaybackUrl_head_some,
   pickPlaybackUrl_top_label, normalizeUrl_no_upgrade, normalizeUrl_upgrade⟩

/-- Witness for claim C2: the amended theorem applied at concrete
encodings — URL provenance on the example's winner, a guaranteed result
when the head encoding has a URL, the top-label rule, and both
normalization behaviours. -/
theorem pickPlaybackUrl_amended_witness :
    (∃ p ∈ [(⟨some "mp4avc", some "http://a/y.mp4"⟩ : Playback)],
        normalizeUrl p.url = some "https://a/y.mp4") ∧
    (pickPlaybackUrl (some [(⟨none, some "u"⟩ : Playback)])).isSome = true ∧
    pickPlaybackUrl (some [(⟨some "MP4AvcAdaptive", some "http://q/v"⟩ : Playback)]) =
      normalizeUrl (some "http://q/v") ∧
    normalizeUrl (some "ftp://z") = some "ftp://z" ∧
    normalizeUrl (some "HTTP://z") = some ("https://" ++ strDrop "HTTP://z" 7) :=
  ⟨pickPlaybackUrl_amended.2.2.2.1 _ "https://a/y.mp4" (by decide),
   pickPlaybackUrl_amended.2.2.2.2.1 ⟨none, some "u"⟩ [] (by decide),
   pickPlaybackUrl_amended.2.2.2.2.2.1 _ ⟨some "MP4AvcAdaptive", some "http://q/v"⟩
     (by decide) (by decide),
   pickPlaybackUrl_amended.2.2.2.2.2.2.1 "ftp://z" (by decide),
   pickPlaybackUrl_amended.2.2.2.2.2.2.2 "HTTP://z" (by decide)⟩

/-- Content whose condensed item yields both a direct playback URL and an
embed URL, used by the claim C1 counterexample. -/
def dualUrlContent : GameContent :=
  { media := some
      { epg := some [{ items := some [{ blankMediaItem with
          title := some "Condensed Game",
          playbacks := some [⟨some "mp4avc", some "https://a/v.mp4"⟩,
            ⟨some "embed", some "https://a/iframe-player"⟩] }] }],
        epgAlternate := none } }

/-- Claim C1 counterexample: on content whose condensed item carries both
a direct MP4 encoding and an iframe encoding, `fetchData` populates both
`videoUrl` and `embedUrl` (and the embed URL is not the fallback), so
"exactly one of videoUrl and embedUrl is populated" fails. -/
theorem fetchData_urls_both_populated :
    truthyStr (fetchDataUrls (some dualUrlContent)).1 = true ∧
    truthyStr (fetchDataUrls (some dualUrlContent)).2 = true ∧
    (fetchDataUrls (some dualUrlContent)).2 ≠ some FALLBACK_STREAMABLE := by
  decide

/-- Helper: the fallback Streamable URL is truthy. -/
theorem truthyStr_fallback : truthyStr (some FALLBACK_STREAMABLE) = true := by decide

/-- Claim C1 (amended): for every run of the per-date pipeline, at least
one of `videoUrl` and `embedUrl` is populated (both may be when the media
yields both a direct and an embed URL), and when the media content yields
neither a truthy direct URL nor a truthy embed URL, `embedUrl` is set to
the fixed fallback Streamable URL — the pair is never both empty. -/
theorem fetchData_url_invariant :
    (∀ cr, truthyStr (fetchDataUrls cr).1 = true ∨ truthyStr (fetchDataUrls cr).2 = true) ∧
    (∀ cr, truthyStr (fetchDataMediaUrls cr).1 = false →
        truthyStr (fetchDataMediaUrls cr).2 = false →
        fetchDataUrls cr = ((fetchDataMediaUrls cr).1, some FALLBACK_STREAMABLE)) := by
  constructor
  · intro cr
    cases ht1 : truthyStr (fetchDataMediaUrls cr).1 with
    | true =>
        left
        simp only [fetchDataUrls, ht1]
        simp [ht1]
    | false =>
        cases ht2 : truthyStr (fetchDataMediaUrls cr).2 with
        | true =>
            right
            simp only [fetchDataUrls, ht1, ht2]
            simp [ht2]
        | false =>
            right
            simp only [fetchDataUrls, ht1, ht2]
            simp [truthyStr_fallback]
  · intro cr h1 h2
    simp only [fetchDataUrls, h1, h2]
    simp

/-- Witness for claim C1: when the content fetch fails outright, the
pipeline substitutes the fallback embed URL. -/
theorem fetchData_url_invariant_witness :
    fetchDataUrls none = ((fetchDataMediaUrls none).1, some FALLBACK_STREAMABLE) :=
  fetchData_url_invariant.2 none (by decide) (by decide)

end DodgersDaily
